import Mathlib

/-!
# Verification of the block-ordering and AI-streaming core

A shallow embedding, in Lean 4, of the core components of the
`t3chat-cloneathon` chat application: the fractional-index allocator,
the rich-document → Markdown serializer, the block store queries and
mutations, and the streaming response coordinator.  JavaScript numbers
are modelled as exact rationals (`ℚ`); JavaScript truthiness tests on
numbers (`if (x)`) are modelled as `x ≠ 0` on present values and
`false` on absent ones.
-/

namespace T3Clone

/-! ## Fractional-index allocator (`convex/utils.ts`, `calculateOrder`)

The source reads:

```js
export function calculateOrder(prevOrder?: number, nextOrder?: number) {
  if (prevOrder && nextOrder) {
    return (prevOrder + nextOrder) / 2;
  } else if (prevOrder) {
    return prevOrder + 1;
  } else if (nextOrder) {
    return nextOrder - 1;
  } else {
    return 1;
  }
}
```

The branch conditions are JavaScript truthiness tests: an argument that
is `undefined` **or equal to `0`** fails the test.  `truthyNum` models
exactly that on `Option ℚ`.
-/

/-- JavaScript truthiness of an optional number: `undefined` and `0`
are falsy, every other number is truthy (`NaN` does not arise in the
rational model). -/
def truthyNum : Option ℚ → Bool
  | none => false
  | some x => x != 0

/-- `calculateOrder` from `convex/utils.ts`, branch for branch.  Inside
a taken branch the argument is necessarily `some`, so reading it with
`Option.getD` is exact. -/
def calculateOrder (prevOrder nextOrder : Option ℚ) : ℚ :=
  if truthyNum prevOrder && truthyNum nextOrder then
    (prevOrder.getD 0 + nextOrder.getD 0) / 2
  else if truthyNum prevOrder then
    prevOrder.getD 0 + 1
  else if truthyNum nextOrder then
    nextOrder.getD 0 - 1
  else
    1

/-- C1: the claim `prev < next → prev < calculateOrder prev next < next`
fails on the code: because the branch tests use JS truthiness, a bound
equal to `0` is treated as absent.  At `prev = -1`, `next = 0` the code
takes the "only prev" branch and returns `prev + 1 = 0`, which is not
strictly below `next = 0`. -/
theorem calculateOrder_not_between_at_neg_one_zero :
    calculateOrder (some (-1)) (some 0) = 0 ∧
      ¬((-1 : ℚ) < calculateOrder (some (-1)) (some 0) ∧
        calculateOrder (some (-1)) (some 0) < 0) := by
  have h0 : calculateOrder (some (-1)) (some 0) = 0 := by
    norm_num [calculateOrder, truthyNum]
  refine ⟨h0, fun h => ?_⟩
  rw [h0] at h
  exact lt_irrefl 0 h.2

/-- C2: the claim "when both `prev` and `next` are present the result is
`(prev + next) / 2`" fails on the code: with `prev = 0`, `next = 5` both
arguments are present, yet `0` is falsy, so the code takes the
"only next" branch and returns `next - 1 = 4` instead of `5/2`. -/
theorem calculateOrder_zero_prev_not_mean :
    calculateOrder (some 0) (some 5) = 4 ∧
      calculateOrder (some 0) (some 5) ≠ ((0 : ℚ) + 5) / 2 := by
  have h0 : calculateOrder (some 0) (some 5) = 4 := by
    norm_num [calculateOrder, truthyNum]
  refine ⟨h0, ?_⟩
  rw [h0]
  norm_num

/-- Positive counterpart (not itself one of the frozen claims): when both
bounds are nonzero — the only case in which the source's truthiness test
agrees with presence — the midpoint is strictly between them. -/
theorem calculateOrder_between_of_ne_zero (p n : ℚ) (hp : p ≠ 0) (hn : n ≠ 0)
    (hlt : p < n) :
    p < calculateOrder (some p) (some n) ∧ calculateOrder (some p) (some n) < n := by
  have hb : (p != 0 && n != 0) = true := by
    simp [bne_iff_ne, hp, hn]
  simp only [calculateOrder, truthyNum, Option.getD_some, hb, if_true]
  constructor
  · linarith
  · linarith

/-! ## Rich-document model (`src/lib/markdown/parser.ts`)

`convertTiptapJsonToMarkdown` runs `tiptapSchema.nodeFromJSON` on the
input and serializes the resulting node with a `MarkdownSerializer`
(prosemirror-markdown) built from the handler table in `parser.ts`,
passing `{ tightLists: true }`.  The embedding models the node subset
the verified claims exercise — `text`, `paragraph`, `listItem`,
`orderedList` — plus an `unsupported` constructor standing for any
node kind outside the schema/handler table, whose serialization fails
exactly as `nodeFromJSON` / `MarkdownSerializerState.render` throw on
unknown token types.  Inline content is restricted to unmarked text
nodes (no marks appear in the claims).  Strings are exact; the
serializer state mirrors `MarkdownSerializerState` of
prosemirror-markdown 1.13 (`out`, `delim`, `closed`, `inTightList`,
`atBlockStart`), with `options.tightLists = true` as at the call site.
-/

/-- Subset of the Tiptap/ProseMirror node tree exercised by the claims. -/
inductive TNode where
  | text (s : String)
  | paragraph (content : List TNode)
  | listItem (content : List TNode)
  | orderedList (order : Option Nat) (content : List TNode)
  | unsupported (kind : String)
deriving Repr

/-- The `type` name of a node, as compared by `renderList`'s
`this.closed.type == node.type` test. -/
def nodeTypeName : TNode → String
  | .text _ => "text"
  | .paragraph _ => "paragraph"
  | .listItem _ => "listItem"
  | .orderedList _ _ => "orderedList"
  | .unsupported k => k

/-- `MarkdownSerializerState`'s mutable fields. -/
structure MDState where
  out : String
  delim : String
  closed : Option TNode
  inTightList : Bool
  atBlockStart : Bool
deriving Repr

/-- `state.repeat(s, n)`: `s` repeated `n` times. -/
def strRepeat (s : String) (n : Nat) : String :=
  String.join (List.replicate n s)

/-- The test of `atBlank()`, on a plain string: the regex `/(^|\n)$/`
matches iff the string is empty or ends in a newline. -/
def atBlankStr (s : String) : Bool :=
  match s.data.getLast? with
  | none => true
  | some c => c == '\n'

/-- `atBlank()` of the serializer state. -/
def atBlank (st : MDState) : Bool :=
  atBlankStr st.out

/-- `flushClose(size)` from `MarkdownSerializerState`. -/
def flushClose (size : Nat) (st : MDState) : MDState :=
  match st.closed with
  | none => st
  | some _ =>
    let out := if atBlank st then st.out else st.out ++ "\n"
    let out :=
      if size > 1 then
        let delimMin := st.delim.dropRightWhile Char.isWhitespace
        out ++ String.join (List.replicate (size - 1) (delimMin ++ "\n"))
      else out
    { st with out := out, closed := none }

/-- `write(content)`: flush a pending block close, emit the line
prefix when at the start of a line, then the content. -/
def write (content : String) (st : MDState) : MDState :=
  let st := flushClose 2 st
  let out := if st.delim ≠ "" ∧ atBlank st then st.out ++ st.delim else st.out
  { st with out := out ++ content }

/-- `closeBlock(node)`. -/
def closeBlock (n : TNode) (st : MDState) : MDState :=
  { st with closed := some n }

/-- `\w` of the escaping regex: `[A-Za-z0-9_]`. -/
def isWordChar (c : Char) : Bool :=
  c.isAlphanum || c == '_'

/-- The characters matched by ``/[`*\\~\[\]_]/`` in `esc`. -/
def escSpecial (c : Char) : Bool :=
  c == Char.ofNat 96 || c == '*' || c == '\\' || c == '~' ||
    c == '[' || c == ']' || c == '_'

/-- The global special-character replacement of `esc`: backslash each
special character, except an `_` standing between two word
characters. -/
def escCore : Option Char → List Char → List Char
  | _, [] => []
  | prev, c :: rest =>
    if escSpecial c then
      if c == '_' &&
          (match prev with | some p => isWordChar p | none => false) &&
          (match rest with | r :: _ => isWordChar r | [] => false) then
        c :: escCore (some c) rest
      else
        '\\' :: c :: escCore (some c) rest
    else
      c :: escCore (some c) rest

/-- Start-of-line replacement `/^(\+[ ]|[-*>])/ → "\\$&"`. -/
def escBullet (cs : List Char) : List Char :=
  match cs with
  | '+' :: ' ' :: rest => '\\' :: '+' :: ' ' :: rest
  | '-' :: rest => '\\' :: '-' :: rest
  | '*' :: rest => '\\' :: '*' :: rest
  | '>' :: rest => '\\' :: '>' :: rest
  | _ => cs

/-- Start-of-line replacement `/^(\s*)(#{1,6})(\s|$)/ → "$1\\$2$3"`. -/
def escHashes (cs : List Char) : List Char :=
  let ws := cs.takeWhile Char.isWhitespace
  let rest := cs.dropWhile Char.isWhitespace
  let hs := rest.takeWhile (· == '#')
  let tl := rest.dropWhile (· == '#')
  if 1 ≤ hs.length && hs.length ≤ 6 &&
      (match tl with | [] => true | c :: _ => c.isWhitespace) then
    ws ++ '\\' :: (hs ++ tl)
  else cs

/-- Start-of-line replacement `/^(\s*\d+)\.\s/ → "$1\\. "`. -/
def escOrderedPrefix (cs : List Char) : List Char :=
  let ws := cs.takeWhile Char.isWhitespace
  let rest := cs.dropWhile Char.isWhitespace
  let ds := rest.takeWhile Char.isDigit
  let tl := rest.dropWhile Char.isDigit
  match tl with
  | '.' :: c :: tl2 =>
    if !ds.isEmpty && c.isWhitespace then
      ws ++ ds ++ '\\' :: '.' :: ' ' :: tl2
    else cs
  | _ => cs

/-- `esc(str, startOfLine)` (the serializer has no
`escapeExtraCharacters` option at this call site). -/
def esc (cs : List Char) (startOfLine : Bool) : List Char :=
  let cs := escCore none cs
  if startOfLine then escOrderedPrefix (escHashes (escBullet cs)) else cs

/-- `text.split("\n")`, on character lists (never returns `[]`). -/
def splitNL : List Char → List (List Char)
  | [] => [[]]
  | c :: rest =>
    let r := splitNL rest
    if c == '\n' then [] :: r
    else
      match r with
      | h :: t => (c :: h) :: t
      | [] => [[c]]

/-- One line of `text()`: `write()` then the escaped line. -/
def textLine (l : List Char) (st : MDState) : MDState :=
  let st := write "" st
  { st with out := st.out ++ String.mk (esc l st.atBlockStart) }

/-- The loop of `text(text)` over the split lines, inserting `"\n"`
between lines. -/
def textLines : List (List Char) → MDState → MDState
  | [], st => st
  | [l], st => textLine l st
  | l :: rest, st =>
    let st := textLine l st
    textLines rest { st with out := st.out ++ "\n" }

/-- `state.text(t)` (with the default `escape = true`). -/
def textM (t : String) (st : MDState) : MDState :=
  textLines (splitNL t.data) st

/-- `renderInline` restricted to unmarked text children: sets
`atBlockStart` from `fromBlockStart = true`, renders each text child
through `text()`, and leaves `atBlockStart = false`.  A non-text
inline child has no handler and fails like an unknown token. -/
def renderInlineGo : List TNode → MDState → Except String MDState
  | [], st => .ok { st with atBlockStart := false }
  | .text s :: rest, st => renderInlineGo rest { textM s st with atBlockStart := false }
  | n :: _, _ =>
    .error ("Token type " ++ nodeTypeName n ++ " not supported by Markdown renderer")

def renderInline (content : List TNode) (st : MDState) : Except String MDState :=
  renderInlineGo content { st with atBlockStart := true }

/-- The opening half of `wrapBlock(delim, firstDelim, node, f)`:
write the first-line prefix, then extend the continuation prefix. -/
def wrapBlockOpen (delim firstDelim : String) (st : MDState) : MDState :=
  let st := write firstDelim st
  { st with delim := st.delim ++ delim }

/-- `node.attrs.order || 1`: the start number of an ordered list, with
JS truthiness defaulting both a missing and a zero attribute to 1. -/
def jsOrderAttr : Option Nat → Nat
  | some o => if o = 0 then 1 else o
  | none => 1

/-- The `firstDelim` callback the `orderedList` handler passes to
`renderList`: `String(start + i)` left-padded with spaces to `maxW`,
the width of `String(start + childCount - 1)`, followed by `". "`. -/
def olPrefix (ord : Option Nat) (count i : Nat) : String :=
  strRepeat " "
      ((toString (jsOrderAttr ord + count - 1)).length -
        (toString (jsOrderAttr ord + i)).length) ++
    toString (jsOrderAttr ord + i) ++ ". "

mutual

/-- `render(node)` dispatching to the handler table of `parser.ts`:
`paragraph` → `renderInline; closeBlock`; `text` → `state.text`;
`listItem` → `renderContent`; `orderedList` → the numbered
`renderList` call; anything else throws. -/
def renderNode (node : TNode) (st : MDState) : Except String MDState :=
  match node with
  | .text s => .ok (textM s st)
  | .paragraph content =>
    match renderInline content st with
    | .error e => .error e
    | .ok st2 => .ok (closeBlock (.paragraph content) st2)
  | .listItem content => renderContentList content st
  | .orderedList ord items =>
    -- const start = node.attrs.order || 1
    -- const maxW = String(start + node.childCount - 1).length
    let maxW := (toString (jsOrderAttr ord + items.length - 1)).length
    -- state.renderList(node, space, i => pad + String(start+i) + ". ")
    let st :=
      if (match st.closed with
          | some c => nodeTypeName c == "orderedList"
          | none => false) then flushClose 3 st
      else if st.inTightList then flushClose 1 st
      else st
    let prevTight := st.inTightList
    let st := { st with inTightList := true }
    match renderListItems items 0 (strRepeat " " (maxW + 2))
        (olPrefix ord items.length) (.orderedList ord items) st with
    | .error e => .error e
    | .ok st2 => .ok { st2 with inTightList := prevTight }
  | .unsupported k =>
    .error ("Token type " ++ k ++ " not supported by Markdown renderer")

/-- `renderContent(parent)`: render the children in order. -/
def renderContentList (children : List TNode) (st : MDState) : Except String MDState :=
  match children with
  | [] => .ok st
  | c :: rest =>
    match renderNode c st with
    | .error e => .error e
    | .ok st2 => renderContentList rest st2

/-- The `node.forEach` loop of `renderList` with `isTight = true`
(the node has no `tight` attr and `options.tightLists = true`):
between items `flushClose(1)`, then `wrapBlock(delim, firstDelim(i),
node, () => render(child))`. -/
def renderListItems (items : List TNode) (i : Nat) (delim : String)
    (firstDelim : Nat → String) (listNode : TNode) (st : MDState) :
    Except String MDState :=
  match items with
  | [] => .ok st
  | child :: rest =>
    let st := if i ≠ 0 then flushClose 1 st else st
    let old := st.delim
    let st := wrapBlockOpen delim (firstDelim i) st
    match renderNode child st with
    | .error e => .error e
    | .ok st2 =>
      let st2 := closeBlock listNode { st2 with delim := old }
      renderListItems rest (i + 1) delim firstDelim listNode st2

end

/-- `serializer.serialize(node, { tightLists: true })`: render the
document's children from a fresh state and return `out`. -/
def serializeDoc (content : List TNode) : Except String String :=
  match renderContentList content
      { out := "", delim := "", closed := none,
        inTightList := false, atBlockStart := false } with
  | .error e => .error e
  | .ok st => .ok st.out

/-- The decoded shape of a stored document: `JSONContent` with an
optional `content` array (`{ type: "doc", content: [...] }`). -/
structure JSONDoc where
  content : Option (List TNode)
deriving Repr

/-- `convertTiptapJsonToMarkdown(json)` from `parser.ts`:
`!json || !json.content` → `""`; a serialization failure is caught
and replaced by the sentinel `"Error during conversion."`. -/
def convertTiptapJsonToMarkdown (json : Option JSONDoc) : String :=
  match json with
  | none => ""
  | some j =>
    match j.content with
    | none => ""
    | some blocks =>
      match serializeDoc blocks with
      | .ok s => s
      | .error _ => "Error during conversion."

/-! ### Serializer lemmas

Plain lowercase letters are inert for the serializer: they are not
escaped, they are not line breaks, and a string of them never ends a
line blank.  These lemmas let the list-rendering loop be computed
symbolically. -/

lemma strAppend_empty (s : String) : s ++ "" = s :=
  String.ext (by simp)

lemma atBlankStr_append (a b : String) (hb : b.data ≠ []) :
    atBlankStr (a ++ b) = atBlankStr b := by
  unfold atBlankStr
  rw [String.data_append, List.getLast?_append_of_ne_nil _ hb]

lemma atBlankStr_of_lower (s : String) (h1 : s.data ≠ [])
    (h2 : ∀ c ∈ s.data, c.isLower = true) : atBlankStr s = false := by
  unfold atBlankStr
  cases hl : s.data.getLast? with
  | none => exact absurd (List.getLast?_eq_none_iff.mp hl) h1
  | some c =>
    have hc : c.isLower = true := h2 c (List.mem_of_getLast?_eq_some hl)
    simp only [beq_eq_false_iff_ne, ne_eq]
    rintro rfl
    exact absurd hc (by decide)

lemma escSpecial_of_lower {c : Char} (h : c.isLower = true) :
    escSpecial c = false := by
  cases he : escSpecial c with
  | false => rfl
  | true =>
    exfalso
    simp only [escSpecial, Bool.or_eq_true, beq_iff_eq] at he
    rcases he with ((((((rfl | rfl) | rfl) | rfl) | rfl) | rfl) | rfl) <;>
      exact absurd h (by decide)

lemma escCore_of_lower : ∀ (cs : List Char) (prev : Option Char),
    (∀ c ∈ cs, c.isLower = true) → escCore prev cs = cs := by
  intro cs
  induction cs with
  | nil => intro prev _; rfl
  | cons c rest ih =>
    intro prev h
    have hc : c.isLower = true := h c (List.mem_cons_self c rest)
    unfold escCore
    rw [escSpecial_of_lower hc]
    simp only [Bool.false_eq_true, if_false]
    rw [ih (some c) (fun x hx => h x (List.mem_cons_of_mem c hx))]

lemma escBullet_of_lower {c : Char} (rest : List Char) (h : c.isLower = true) :
    escBullet (c :: rest) = c :: rest := by
  unfold escBullet
  split
  · rename_i heq; injection heq with h1 _; exact absurd (h1 ▸ h) (by decide)
  · rename_i heq; injection heq with h1 _; exact absurd (h1 ▸ h) (by decide)
  · rename_i heq; injection heq with h1 _; exact absurd (h1 ▸ h) (by decide)
  · rename_i heq; injection heq with h1 _; exact absurd (h1 ▸ h) (by decide)
  · rfl

lemma not_whitespace_of_lower {c : Char} (h : c.isLower = true) :
    c.isWhitespace = false := by
  cases hw : c.isWhitespace with
  | false => rfl
  | true =>
    exfalso
    simp only [Char.isWhitespace, Bool.or_eq_true, decide_eq_true_eq] at hw
    rcases hw with ((rfl | rfl) | rfl) | rfl <;> exact absurd h (by decide)

lemma not_digit_of_lower {c : Char} (h : c.isLower = true) :
    c.isDigit = false := by
  cases hd : c.isDigit with
  | false => rfl
  | true =>
    exfalso
    simp only [Char.isDigit, Bool.and_eq_true, decide_eq_true_eq] at hd
    simp only [Char.isLower, Bool.and_eq_true, decide_eq_true_eq] at h
    have h3 : (97 : UInt32) ≤ 57 := UInt32.le_trans h.1 hd.2
    exact absurd h3 (by decide)

lemma escHashes_of_lower {c : Char} (rest : List Char) (h : c.isLower = true) :
    escHashes (c :: rest) = c :: rest := by
  have hws := not_whitespace_of_lower h
  have hhash : (c == '#') = false := by
    simp only [beq_eq_false_iff_ne, ne_eq]
    rintro rfl; exact absurd h (by decide)
  have h1 : List.takeWhile Char.isWhitespace (c :: rest) = [] :=
    List.takeWhile_cons_of_neg (by simp [hws])
  have h2 : List.dropWhile Char.isWhitespace (c :: rest) = c :: rest :=
    List.dropWhile_cons_of_neg (by simp [hws])
  have h3 : List.takeWhile (fun x => x == '#') (c :: rest) = [] :=
    List.takeWhile_cons_of_neg (by simp [hhash])
  have h4 : List.dropWhile (fun x => x == '#') (c :: rest) = c :: rest :=
    List.dropWhile_cons_of_neg (by simp [hhash])
  unfold escHashes
  simp only [h1, h2, h3, h4, List.length_nil]
  simp

lemma escOrderedPrefix_of_lower {c : Char} (rest : List Char)
    (h : c.isLower = true) : escOrderedPrefix (c :: rest) = c :: rest := by
  have hws := not_whitespace_of_lower h
  have hd := not_digit_of_lower h
  have h1 : List.takeWhile Char.isWhitespace (c :: rest) = [] :=
    List.takeWhile_cons_of_neg (by simp [hws])
  have h2 : List.dropWhile Char.isWhitespace (c :: rest) = c :: rest :=
    List.dropWhile_cons_of_neg (by simp [hws])
  have h3 : List.takeWhile Char.isDigit (c :: rest) = [] :=
    List.takeWhile_cons_of_neg (by simp [hd])
  have h4 : List.dropWhile Char.isDigit (c :: rest) = c :: rest :=
    List.dropWhile_cons_of_neg (by simp [hd])
  unfold escOrderedPrefix
  simp only [h1, h2, h3, h4]
  split
  · rename_i heq
    injection heq with h5 _
    exact absurd (h5 ▸ h) (by decide)
  · rfl

lemma esc_of_lower (cs : List Char) (b : Bool)
    (h : ∀ c ∈ cs, c.isLower = true) : esc cs b = cs := by
  unfold esc
  rw [escCore_of_lower cs none h]
  cases b with
  | false => rfl
  | true =>
    cases cs with
    | nil => rfl
    | cons c rest =>
      have hc : c.isLower = true := h c (List.mem_cons_self c rest)
      show escOrderedPrefix (escHashes (escBullet (c :: rest))) = c :: rest
      rw [escBullet_of_lower rest hc, escHashes_of_lower rest hc,
        escOrderedPrefix_of_lower rest hc]

lemma splitNL_of_lower (cs : List Char) (h : ∀ c ∈ cs, c.isLower = true) :
    splitNL cs = [cs] := by
  induction cs with
  | nil => rfl
  | cons c rest ih =>
    have hc : c.isLower = true := h c (List.mem_cons_self c rest)
    have hnl : (c == '\n') = false := by
      simp only [beq_eq_false_iff_ne, ne_eq]
      rintro rfl; exact absurd hc (by decide)
    unfold splitNL
    rw [ih (fun x hx => h x (List.mem_cons_of_mem c hx))]
    simp [hnl]

lemma ne_nil_of_atBlankStr_false {t : String} (h : atBlankStr t = false) :
    t.data ≠ [] := by
  intro hnil
  unfold atBlankStr at h
  rw [hnil] at h
  simp at h

lemma flushClose_none (k : Nat) (st : MDState) (h : st.closed = none) :
    flushClose k st = st := by
  unfold flushClose
  rw [h]

lemma flushClose_one (st : MDState) (n : TNode) (h1 : st.closed = some n)
    (h2 : atBlank st = false) :
    flushClose 1 st = { st with out := st.out ++ "\n", closed := none } := by
  unfold flushClose
  rw [h1]
  simp [h2]

lemma write_simple (c : String) (st : MDState) (h1 : st.closed = none)
    (h2 : st.delim = "") :
    write c st = { st with out := st.out ++ c } := by
  unfold write
  rw [flushClose_none 2 st h1]
  simp [h2]

lemma write_empty (st : MDState) (h1 : st.closed = none)
    (h2 : atBlank st = false) :
    write "" st = st := by
  unfold write
  rw [flushClose_none 2 st h1]
  simp [h2, strAppend_empty]

lemma textM_lower (s : String) (st : MDState) (h1 : st.closed = none)
    (h2 : atBlank st = false) (hl : ∀ c ∈ s.data, c.isLower = true) :
    textM s st = { st with out := st.out ++ s } := by
  unfold textM
  rw [splitNL_of_lower s.data hl]
  show textLine s.data st = _
  unfold textLine
  simp only [write_empty st h1 h2, esc_of_lower s.data _ hl]

lemma renderInline_text (s : String) (st : MDState) (h1 : st.closed = none)
    (h2 : atBlank st = false) (hl : ∀ c ∈ s.data, c.isLower = true) :
    renderInline [.text s] st =
      .ok { st with out := st.out ++ s, atBlockStart := false } := by
  show renderInlineGo [.text s] { st with atBlockStart := true } = _
  show renderInlineGo []
      { textM s { st with atBlockStart := true } with atBlockStart := false } = _
  rw [textM_lower s { st with atBlockStart := true } h1 h2 hl]
  rfl

/-- Rendering one list item `listItem [paragraph [text s]]` appends the
item text and closes the paragraph block. -/
lemma renderNode_item (s : String) (st : MDState) (h1 : st.closed = none)
    (h2 : atBlank st = false) (hl : ∀ c ∈ s.data, c.isLower = true) :
    renderNode (.listItem [.paragraph [.text s]]) st =
      .ok { st with
            out := st.out ++ s, atBlockStart := false,
            closed := some (.paragraph [.text s]) } := by
  have hp := renderInline_text s st h1 h2 hl
  simp only [renderNode, renderContentList, hp, closeBlock]

/-- One node per item text. -/
def wrapItem (s : String) : TNode :=
  .listItem [.paragraph [.text s]]

/-- The tail of a rendered tight list: each remaining item `s` at index
`i` contributes `"\n" ++ pf i ++ s`. -/
def linesFrom (pf : Nat → String) : Nat → List String → String
  | _, [] => ""
  | i, s :: rest => "\n" ++ (pf i ++ s) ++ linesFrom pf (i + 1) rest

/-- Symbolic run of the `renderList` item loop (tight list) from the
state left behind by the first item. -/
lemma renderListItems_loop (ln : TNode) (space : String) (pf : Nat → String)
    (hpf : ∀ i, atBlankStr (pf i) = false) :
    ∀ (ss : List String) (i : Nat) (out0 : String), i ≠ 0 →
      atBlankStr out0 = false →
      (∀ s ∈ ss, s.data ≠ [] ∧ ∀ c ∈ s.data, c.isLower = true) →
      renderListItems (ss.map wrapItem) i space pf ln
        { out := out0, delim := "", closed := some ln,
          inTightList := true, atBlockStart := false } =
      .ok { out := out0 ++ linesFrom pf i ss, delim := "", closed := some ln,
            inTightList := true, atBlockStart := false } := by
  intro ss
  induction ss with
  | nil =>
    intro i out0 _ _ _
    simp [renderListItems, linesFrom, strAppend_empty]
  | cons s rest ih =>
    intro i out0 hi hb hlow
    have hs := hlow s (List.mem_cons_self s rest)
    have hfc : flushClose 1
        { out := out0, delim := "", closed := some ln,
          inTightList := true, atBlockStart := false } =
        { out := out0 ++ "\n", delim := "", closed := none,
          inTightList := true, atBlockStart := (false : Bool) } :=
      flushClose_one _ ln rfl hb
    have hwo : wrapBlockOpen space (pf i)
        { out := out0 ++ "\n", delim := "", closed := none,
          inTightList := true, atBlockStart := false } =
        { out := (out0 ++ "\n") ++ pf i, delim := space, closed := none,
          inTightList := true, atBlockStart := (false : Bool) } := by
      unfold wrapBlockOpen
      rw [write_simple _ _ rfl rfl]
      rfl
    have hbB : atBlank
        { out := (out0 ++ "\n") ++ pf i, delim := space, closed := none,
          inTightList := true, atBlockStart := (false : Bool) } = false := by
      show atBlankStr ((out0 ++ "\n") ++ pf i) = false
      rw [atBlankStr_append _ _ (ne_nil_of_atBlankStr_false (hpf i))]
      exact hpf i
    have hitem := renderNode_item s _ rfl hbB hs.2
    have hb2 : atBlankStr (((out0 ++ "\n") ++ pf i) ++ s) = false := by
      rw [atBlankStr_append _ _ hs.1]
      exact atBlankStr_of_lower s hs.1 hs.2
    have hrest := ih (i + 1) ((((out0 ++ "\n") ++ pf i) ++ s)) (by omega) hb2
      (fun x hx => hlow x (List.mem_cons_of_mem s hx))
    simp only [List.map_cons, renderListItems, wrapItem, hi, not_false_eq_true,
      ite_not, ite_true, ite_false, hfc, hwo, hitem, closeBlock, hrest,
      linesFrom]
    simp [String.append_assoc]

/-- Symbolic run of the `renderList` item loop from the fresh state the
`orderedList` handler reaches at the top of an otherwise empty
document. -/
lemma renderListItems_start (ln : TNode) (space : String) (pf : Nat → String)
    (hpf : ∀ i, atBlankStr (pf i) = false) (s0 : String) (rest : List String)
    (hlow : ∀ s ∈ s0 :: rest, s.data ≠ [] ∧ ∀ c ∈ s.data, c.isLower = true) :
    renderListItems ((s0 :: rest).map wrapItem) 0 space pf ln
      { out := "", delim := "", closed := none, inTightList := true,
        atBlockStart := false } =
    .ok { out := (pf 0 ++ s0) ++ linesFrom pf 1 rest, delim := "",
          closed := some ln, inTightList := true, atBlockStart := false } := by
  have hs := hlow s0 (List.mem_cons_self s0 rest)
  have hwo : wrapBlockOpen space (pf 0)
      { out := "", delim := "", closed := none, inTightList := true,
        atBlockStart := false } =
      { out := pf 0, delim := space, closed := none, inTightList := true,
        atBlockStart := (false : Bool) } := by
    unfold wrapBlockOpen
    rw [write_simple _ _ rfl rfl]
    rfl
  have hbB : atBlank
      { out := pf 0, delim := space, closed := none, inTightList := true,
        atBlockStart := (false : Bool) } = false := hpf 0
  have hitem := renderNode_item s0 _ rfl hbB hs.2
  have hb2 : atBlankStr (pf 0 ++ s0) = false := by
    rw [atBlankStr_append _ _ hs.1]
    exact atBlankStr_of_lower s0 hs.1 hs.2
  have hrest := renderListItems_loop ln space pf hpf rest 1 (pf 0 ++ s0)
    (by omega) hb2 (fun x hx => hlow x (List.mem_cons_of_mem s0 hx))
  simp only [List.map_cons, renderListItems, wrapItem, ne_eq,
    not_true_eq_false, ite_true, ite_false, ite_not, hwo, hitem, closeBlock,
    hrest]

/-- Lines joined by single newlines. -/
def joinLines : List String → String
  | [] => ""
  | [l] => l
  | l :: rest => l ++ "\n" ++ joinLines rest

lemma joinLines_cons_linesFrom (pf : Nat → String) :
    ∀ (ss : List String) (i : Nat) (a : String),
      joinLines (a :: (ss.enumFrom i).map fun p => pf p.1 ++ p.2) =
        a ++ linesFrom pf i ss := by
  intro ss
  induction ss with
  | nil =>
    intro i a
    simp [joinLines, linesFrom, strAppend_empty]
  | cons s rest ih =>
    intro i a
    show joinLines (a :: (pf i ++ s) :: ((rest.enumFrom (i + 1)).map _)) = _
    simp only [joinLines, ih (i + 1) (pf i ++ s), linesFrom]
    simp [String.append_assoc]

/-- Serialization of a document consisting of one ordered list of
plain lowercase items, fully computed. -/
lemma serializeDoc_orderedList_cons (ord : Option Nat) (s0 : String)
    (rest : List String)
    (hlow : ∀ s ∈ s0 :: rest, s.data ≠ [] ∧ ∀ c ∈ s.data, c.isLower = true) :
    serializeDoc [.orderedList ord ((s0 :: rest).map wrapItem)] =
      .ok ((olPrefix ord (s0 :: rest).length 0 ++ s0) ++
        linesFrom (olPrefix ord (s0 :: rest).length) 1 rest) := by
  have hpf : ∀ i, atBlankStr (olPrefix ord (s0 :: rest).length i) = false := by
    intro i
    unfold olPrefix
    rw [atBlankStr_append _ ". " (by decide)]
    decide
  have hstart := renderListItems_start (.orderedList ord ((s0 :: rest).map wrapItem))
    (strRepeat " "
      ((toString (jsOrderAttr ord + ((s0 :: rest).map wrapItem).length - 1)).length + 2))
    (olPrefix ord (s0 :: rest).length) hpf s0 rest hlow
  simp only [List.length_map, List.length_cons] at hstart
  unfold serializeDoc
  simp only [renderContentList, renderNode, List.length_map, List.length_cons,
    Bool.false_eq_true, ite_false, ite_true, hstart]

/-- C9: serializing an ordered list of plain (lowercase) text items
prefixes item `i` with `String(start + i)` right-aligned to the width
of the largest number `start + childCount - 1` followed by `". "`, one
item per line (`olPrefix` is that prefix, as computed by the
`orderedList` handler). -/
theorem orderedList_numbering (ord : Option Nat) (items : List String)
    (hne : items ≠ [])
    (hlow : ∀ s ∈ items, s.data ≠ [] ∧ ∀ c ∈ s.data, c.isLower = true) :
    serializeDoc
        [.orderedList ord (items.map fun s => .listItem [.paragraph [.text s]])] =
      .ok (joinLines (items.enum.map fun p =>
        olPrefix ord items.length p.1 ++ p.2)) := by
  obtain ⟨s0, rest, rfl⟩ : ∃ s0 rest, items = s0 :: rest := by
    cases items with
    | nil => exact absurd rfl hne
    | cons a l => exact ⟨a, l, rfl⟩
  have h1 := serializeDoc_orderedList_cons ord s0 rest hlow
  have h2 := joinLines_cons_linesFrom (olPrefix ord (s0 :: rest).length) rest 1
    (olPrefix ord (s0 :: rest).length 0 ++ s0)
  show serializeDoc [.orderedList ord ((s0 :: rest).map wrapItem)] =
    .ok (joinLines ((olPrefix ord (s0 :: rest).length 0 ++ s0) ::
      (rest.enumFrom 1).map fun p => olPrefix ord (s0 :: rest).length p.1 ++ p.2))
  rw [h1, h2]

/-- C9 witness: the 12-item list starting at order 1 renders with
prefixes `" 1. "` through `"12. "`. -/
theorem orderedList_numbering_witness :
    serializeDoc [.orderedList (some 1)
        (["a", "b", "c", "d", "e", "f", "g", "h", "i", "j", "k", "l"].map
          fun s => .listItem [.paragraph [.text s]])] =
      .ok " 1. a\n 2. b\n 3. c\n 4. d\n 5. e\n 6. f\n 7. g\n 8. h\n 9. i\n10. j\n11. k\n12. l" := by
  have h := orderedList_numbering (some 1)
    ["a", "b", "c", "d", "e", "f", "g", "h", "i", "j", "k", "l"]
    (by decide) (by decide)
  rw [h]
  rfl

/-- C8: `convertTiptapJsonToMarkdown` never throws: a null input or an
input without a `content` field returns `""`, and a failing
serialization returns the sentinel `"Error during conversion."`
instead of propagating (the function is total by construction). -/
theorem convertTiptapJson_never_throws :
    convertTiptapJsonToMarkdown none = "" ∧
    (∀ j : JSONDoc, j.content = none → convertTiptapJsonToMarkdown (some j) = "") ∧
    (∀ (blocks : List TNode) (e : String), serializeDoc blocks = .error e →
      convertTiptapJsonToMarkdown (some ⟨some blocks⟩) = "Error during conversion.") := by
  refine ⟨rfl, ?_, ?_⟩
  · intro j hj
    simp [convertTiptapJsonToMarkdown, hj]
  · intro blocks e he
    simp [convertTiptapJsonToMarkdown, he]

/-- C8 witness: a node kind outside the schema fails serialization and
is converted to the sentinel string. -/
theorem convertTiptapJson_never_throws_witness :
    convertTiptapJsonToMarkdown (some ⟨some [.unsupported "video"]⟩) =
      "Error during conversion." :=
  convertTiptapJson_never_throws.2.2 [.unsupported "video"]
    "Token type video not supported by Markdown renderer" rfl

/-! ## Context assembly (`generateBlocks` in `convex/ai.ts`)

`generateBlocks` maps the blocks returned by `getBlocksAssistant` to
`{role, content}` messages via `convertTiptapJsonToMarkdown`, drops
entries with empty content (`.filter((block) => block.content.length)`),
prepends the fixed system preamble, and appends a synthetic
`{role: "user", content: "Continue"}` iff the last entry's role is
`"assistant"`. -/

/-- Block author (`blocks.author` in the schema). -/
inductive Author where
  | user
  | assistant
deriving Repr, DecidableEq

/-- Chat roles of the `CoreMessage` list sent to the model. -/
inductive Role where
  | system
  | user
  | assistant
deriving Repr, DecidableEq

/-- An entry of the message list. -/
structure CoreMessage where
  role : Role
  content : String
deriving Repr, DecidableEq

def Author.toRole : Author → Role
  | .user => .user
  | .assistant => .assistant

/-- `{ role: "system", content: "You are a helpful assistant." }`. -/
def systemMessage : CoreMessage :=
  ⟨.system, "You are a helpful assistant."⟩

/-- The message list before continuation injection: the system
preamble, then each block's `(author, markdown)` pair, skipping blocks
whose converted text is empty. -/
def baseMessages (blocks : List (Author × Option JSONDoc)) : List CoreMessage :=
  systemMessage ::
    ((blocks.map fun b =>
        CoreMessage.mk b.1.toRole (convertTiptapJsonToMarkdown b.2)).filter
      fun m => m.content.length != 0)

/-- `blocksToUse` as assembled by `generateBlocks`: append a
`"Continue"` user turn when the last entry is an assistant turn. -/
def blocksToUse (blocks : List (Author × Option JSONDoc)) : List CoreMessage :=
  let base := baseMessages blocks
  if (base.getLastD systemMessage).role = .assistant then
    base ++ [⟨.user, "Continue"⟩]
  else
    base

/-- C4: the assembled message list ends with `{user, "Continue"}`
exactly when the last entry before the adjustment has role assistant;
otherwise nothing is appended. -/
theorem continuation_injection (blocks : List (Author × Option JSONDoc)) :
    (((baseMessages blocks).getLastD systemMessage).role = .assistant →
      blocksToUse blocks = baseMessages blocks ++ [⟨.user, "Continue"⟩] ∧
      (blocksToUse blocks).getLastD systemMessage = ⟨.user, "Continue"⟩) ∧
    (((baseMessages blocks).getLastD systemMessage).role ≠ .assistant →
      blocksToUse blocks = baseMessages blocks) := by
  constructor
  · intro h
    have hb : blocksToUse blocks = baseMessages blocks ++ [⟨.user, "Continue"⟩] := by
      show (if ((baseMessages blocks).getLastD systemMessage).role = Role.assistant
          then baseMessages blocks ++ [⟨.user, "Continue"⟩]
          else baseMessages blocks) = _
      rw [if_pos h]
    refine ⟨hb, ?_⟩
    rw [hb]
    simp [List.getLastD_concat]
  · intro h
    show (if ((baseMessages blocks).getLastD systemMessage).role = Role.assistant
        then baseMessages blocks ++ [⟨.user, "Continue"⟩]
        else baseMessages blocks) = _
    rw [if_neg h]

/-- C4 witness: with a single included assistant block converting to
the non-empty text `"hi"`, the assembled list ends in the synthetic
`"Continue"` user turn. -/
theorem continuation_injection_witness :
    blocksToUse [(Author.assistant, some ⟨some [.paragraph [.text "hi"]]⟩)] =
      baseMessages [(Author.assistant, some ⟨some [.paragraph [.text "hi"]]⟩)] ++
        [⟨.user, "Continue"⟩] :=
  ((continuation_injection
    [(Author.assistant, some ⟨some [.paragraph [.text "hi"]]⟩)]).1 rfl).1

/-! ## Block store (`convex/blocks.ts`, `convex/conversations.ts`)

The Convex database is modelled as association lists keyed by numeric
ids assigned in increasing insertion order; the id doubles as the
document's `_creationTime` rank.  As in Convex, every index implicitly
ends with the `_creationTime` column, and `withIndex(...).order("asc")`
returns rows sorted by the index's explicit columns with creation time
as the final tiebreaker.  Hence `by_conversation_and_order` with an
equality constraint on `conversationId` sorts by `(order,
creationTime)`, while `by_conversation_and_inclusion` with equality
constraints on both `conversationId` and `isExcluded` sorts by
creation time alone.  Stored `content` is held decoded (the
`JSON.stringify` on write and `JSON.parse` on read cancel). -/

/-- Conversation status. -/
inductive CStatus where
  | idle
  | streaming
  | completed
  | error
deriving Repr, DecidableEq

/-- A `conversations` row. -/
structure Conversation where
  title : String
  userId : String
  createdAt : Nat
  updatedAt : Nat
  status : CStatus
  model : String
deriving Repr, DecidableEq

/-- The optional `metadata` object of a block. -/
structure Metadata where
  tokens : Option Nat
  model : Option String
  finishReason : Option String
deriving Repr, DecidableEq

/-- A `blocks` row. -/
structure Block where
  conversationId : Nat
  author : Author
  content : Option JSONDoc
  streamingContent : Option String
  streamId : Option String
  isStreaming : Bool
  order : ℚ
  isExcluded : Bool
  createdAt : Nat
  updatedAt : Nat
  metadata : Option Metadata
deriving Repr

/-- The database: id-keyed rows plus the next fresh id. -/
structure DB where
  nextId : Nat
  conversations : List (Nat × Conversation)
  blocks : List (Nat × Block)
deriving Repr

def DB.getConversation (db : DB) (id : Nat) : Option Conversation :=
  (db.conversations.find? fun p => p.1 == id).map Prod.snd

def DB.getBlock (db : DB) (id : Nat) : Option Block :=
  (db.blocks.find? fun p => p.1 == id).map Prod.snd

def DB.insertBlock (db : DB) (b : Block) : DB × Nat :=
  (⟨db.nextId + 1, db.conversations, db.blocks ++ [(db.nextId, b)]⟩, db.nextId)

def DB.removeBlock (db : DB) (id : Nat) : DB :=
  { db with blocks := db.blocks.filter fun p => p.1 != id }

/-- `ctx.db.patch` on one block (call sites only patch existing rows). -/
def DB.patchBlock (db : DB) (id : Nat) (f : Block → Block) : DB :=
  { db with blocks := db.blocks.map fun p => if p.1 == id then (p.1, f p.2) else p }

/-- Insertion sort by a boolean `≤`-style relation (sort keys at the
call sites are distinct, so stability is immaterial). -/
def insertSorted (le : α → α → Bool) (x : α) : List α → List α
  | [] => [x]
  | y :: ys => if le x y then x :: y :: ys else y :: insertSorted le x ys

def sortBy (le : α → α → Bool) : List α → List α
  | [] => []
  | x :: xs => insertSorted le x (sortBy le xs)

/-- `(order, _creationTime)` — the sort key of `by_conversation_and_order`
once `conversationId` is equality-constrained. -/
def orderKeyLE (a b : Nat × Block) : Bool :=
  a.2.order < b.2.order || (a.2.order == b.2.order && a.1 ≤ b.1)

/-- The `by_conversation_and_order` ascending query on one conversation. -/
def blocksByOrderAsc (db : DB) (conversationId : Nat) : List (Nat × Block) :=
  sortBy orderKeyLE (db.blocks.filter fun p => p.2.conversationId == conversationId)

/-- Store errors: the `Error` messages thrown by the handlers, classed
as in the spec's taxonomy. -/
inductive StoreError where
  | unauthenticated
  | unauthorized
  | notFound (what : String)
deriving Repr, DecidableEq

def StoreError.isNotFound : StoreError → Bool
  | .notFound _ => true
  | _ => false

/-- `getBlocksUser` (`listOrdered`): auth check, then the
`by_conversation_and_order` ascending listing.  A missing conversation
and a non-owned conversation both throw `"Unauthorized"`. -/
def getBlocksUser (identitySubject : String) (conversationId : Nat) (db : DB) :
    Except StoreError (List (Nat × Block)) :=
  match db.getConversation conversationId with
  | none => .error .unauthorized
  | some conversation =>
    if conversation.userId != identitySubject then .error .unauthorized
    else .ok (blocksByOrderAsc db conversationId)

/-- `getBlocksAssistant` (`listIncludedOrdered`): the
`by_conversation_and_inclusion` query with both index columns
equality-constrained, `.order("asc")` — i.e. rows of the conversation
with `isExcluded == false` in creation-time order. -/
def getBlocksAssistant (conversationId : Nat) (db : DB) : List (Nat × Block) :=
  sortBy (fun a b => a.1 ≤ b.1)
    (db.blocks.filter fun p =>
      p.2.conversationId == conversationId && p.2.isExcluded == false)

/-- `createUserBlock`: auth check, order computation (end-of-list
`+1`, or fractional insertion before the next block after
`afterOrder`), then the insert. -/
def createUserBlock (identitySubject : String) (conversationId : Nat)
    (content : Option JSONDoc) (afterOrder : Option ℚ) (now : Nat) (db : DB) :
    Except StoreError (DB × Nat) :=
  match db.getConversation conversationId with
  | none => .error .unauthorized
  | some conversation =>
    if conversation.userId != identitySubject then .error .unauthorized
    else
      let newOrder : ℚ :=
        match afterOrder with
        | none =>
          match (blocksByOrderAsc db conversationId).getLast? with
          | some lastBlock => lastBlock.2.order + 1
          | none => 1
        | some a =>
          match (blocksByOrderAsc db conversationId).find?
              (fun p => a < p.2.order) with
          | some nextBlock => calculateOrder (some a) (some nextBlock.2.order)
          | none => a + 1
      let defaultContent : JSONDoc := ⟨some [.paragraph []]⟩
      let contentToStore := match content with
        | some c => c
        | none => defaultContent
      .ok (db.insertBlock
        { conversationId := conversationId, author := .user,
          content := some contentToStore, streamingContent := none,
          streamId := none, isStreaming := false, order := newOrder,
          isExcluded := false, createdAt := now, updatedAt := now,
          metadata := none })

/-- `deleteBlock`: block lookup, conversation lookup, ownership check
(the `block.conversationId !== conversation._id` disjunct of the
source compares the key the conversation was fetched under with
itself), then the hard delete. -/
def deleteBlock (identitySubject : String) (blockId : Nat) (db : DB) :
    Except StoreError (DB × Nat) :=
  match db.getBlock blockId with
  | none => .error (.notFound "Block")
  | some block =>
    match db.getConversation block.conversationId with
    | none => .error (.notFound "Conversation")
    | some conversation =>
      if block.conversationId != block.conversationId ||
          conversation.userId != identitySubject then
        .error .unauthorized
      else
        .ok (db.removeBlock blockId, blockId)

/-- `updateBlockUser` (`updateContent`): same checks as `deleteBlock`,
then a full-content patch stamping `updatedAt`. -/
def updateBlockUser (identitySubject : String) (blockId : Nat)
    (content : JSONDoc) (now : Nat) (db : DB) : Except StoreError DB :=
  match db.getBlock blockId with
  | none => .error (.notFound "Block")
  | some block =>
    match db.getConversation block.conversationId with
    | none => .error (.notFound "Conversation")
    | some conversation =>
      if block.conversationId != block.conversationId ||
          conversation.userId != identitySubject then
        .error .unauthorized
      else
        .ok (db.patchBlock blockId fun b =>
          { b with content := some content, updatedAt := now })

/-- `toggleExclusion`: same checks, then the flag patch stamping
`updatedAt`. -/
def toggleExclusion (identitySubject : String) (blockId : Nat)
    (isExcluded : Bool) (now : Nat) (db : DB) : Except StoreError DB :=
  match db.getBlock blockId with
  | none => .error (.notFound "Block")
  | some block =>
    match db.getConversation block.conversationId with
    | none => .error (.notFound "Conversation")
    | some conversation =>
      if block.conversationId != block.conversationId ||
          conversation.userId != identitySubject then
        .error .unauthorized
      else
        .ok (db.patchBlock blockId fun b =>
          { b with isExcluded := isExcluded, updatedAt := now })

/-- A conversation as inserted by `conversations.create`. -/
def exConversation : Conversation :=
  ⟨"New Conversation", "user1", 0, 0, .idle, "gpt"⟩

/-- A minimal user block at a given order. -/
def exBlockRow (ord : ℚ) : Block :=
  { conversationId := 1, author := .user, content := none,
    streamingContent := none, streamId := none, isStreaming := false,
    order := ord, isExcluded := false, createdAt := 0, updatedAt := 0,
    metadata := none }

/-- A database in which block 12 (created last) was inserted *between*
blocks 10 and 11 by fractional indexing: creation order 10, 11, 12 but
document order 10 (order 1), 12 (order 3/2), 11 (order 2). -/
def exDB : DB :=
  { nextId := 13,
    conversations := [(1, exConversation)],
    blocks := [(10, exBlockRow 1), (11, exBlockRow 2), (12, exBlockRow (3/2))] }

/-- C6: `getBlocksAssistant` queries `by_conversation_and_inclusion`
with both explicit index columns equality-constrained, so `.order("asc")`
yields creation-time order, not `order` order: on `exDB` it returns
orders `[1, 2, 3/2]`, which is not ascending (the filter half of the
claim — no excluded block is returned — does hold). -/
theorem getBlocksAssistant_not_sorted_by_order :
    ((getBlocksAssistant 1 exDB).map fun p => p.2.order) = [1, 2, 3 / 2] ∧
    ¬ List.Sorted (· ≤ ·) ((getBlocksAssistant 1 exDB).map fun p => p.2.order) ∧
    (getBlocksAssistant 1 exDB).all (fun p => !p.2.isExcluded) = true := by
  have h1 : ((getBlocksAssistant 1 exDB).map fun p => p.2.order) =
      [1, 2, 3 / 2] := rfl
  refine ⟨h1, ?_, rfl⟩
  intro hsorted
  rw [h1] at hsorted
  have h2 := (List.sorted_cons.mp hsorted).2
  have h3 := (List.sorted_cons.mp h2).1 (3 / 2) (by simp)
  norm_num at h3

/-- C7 as stated is false: for the conversation-scoped operations the
source merges the missing-conversation case into the `"Unauthorized"`
throw, so a nonexistent conversation id yields an Authorization error,
not a NotFound error. -/
theorem blockStore_notfound_counterexample :
    getBlocksUser "alice" 0 { nextId := 0, conversations := [], blocks := [] } =
      .error .unauthorized ∧
    StoreError.isNotFound .unauthorized = false :=
  ⟨rfl, rfl⟩

/-- C7 (amended): block-targeting operations fail with NotFound on a
missing block and with Authorization on an ownership mismatch;
conversation-scoped operations (`listOrdered`, `createUserBlock`) fail
with Authorization both when the conversation is missing and when it
is not owned by the caller.  Errors return no new state. -/
theorem blockStore_failure_modes (u : String) (db : DB) (bid cid : Nat)
    (content : JSONDoc) (flag : Bool) (afterOrder : Option ℚ) (now : Nat) :
    (db.getBlock bid = none →
      deleteBlock u bid db = .error (.notFound "Block") ∧
      updateBlockUser u bid content now db = .error (.notFound "Block") ∧
      toggleExclusion u bid flag now db = .error (.notFound "Block")) ∧
    (∀ b conversation, db.getBlock bid = some b →
      db.getConversation b.conversationId = some conversation →
      conversation.userId ≠ u →
      deleteBlock u bid db = .error .unauthorized ∧
      updateBlockUser u bid content now db = .error .unauthorized ∧
      toggleExclusion u bid flag now db = .error .unauthorized) ∧
    (db.getConversation cid = none →
      getBlocksUser u cid db = .error .unauthorized ∧
      createUserBlock u cid (some content) afterOrder now db = .error .unauthorized) ∧
    (∀ conversation, db.getConversation cid = some conversation →
      conversation.userId ≠ u →
      getBlocksUser u cid db = .error .unauthorized ∧
      createUserBlock u cid (some content) afterOrder now db = .error .unauthorized) := by
  refine ⟨?_, ?_, ?_, ?_⟩
  · intro h
    refine ⟨?_, ?_, ?_⟩ <;>
      simp [deleteBlock, updateBlockUser, toggleExclusion, h]
  · intro b conversation hb hc hu
    have hbne : (conversation.userId != u) = true := bne_iff_ne.mpr hu
    refine ⟨?_, ?_, ?_⟩ <;>
      simp [deleteBlock, updateBlockUser, toggleExclusion, hb, hc, hbne]
  · intro h
    exact ⟨by simp [getBlocksUser, h], by simp [createUserBlock, h]⟩
  · intro conversation hc hu
    have hbne : (conversation.userId != u) = true := bne_iff_ne.mpr hu
    exact ⟨by simp [getBlocksUser, hc, hbne],
      by simp [createUserBlock, hc, hbne]⟩

/-- C7 witness: on `exDB` (owner `"user1"`), the caller `"alice"` gets
NotFound for a missing block id, and Authorization for a missing
conversation, a non-owned block, and a non-owned conversation. -/
theorem blockStore_failure_modes_witness :
    deleteBlock "alice" 99 exDB = .error (.notFound "Block") ∧
    getBlocksUser "alice" 7 exDB = .error .unauthorized ∧
    deleteBlock "alice" 10 exDB = .error .unauthorized ∧
    getBlocksUser "alice" 1 exDB = .error .unauthorized := by
  have h := blockStore_failure_modes "alice" exDB 99 7 ⟨none⟩ false none 0
  have h2 := blockStore_failure_modes "alice" exDB 10 1 ⟨none⟩ false none 0
  exact ⟨(h.1 rfl).1, (h.2.2.1 rfl).1,
    (h2.2.1 (exBlockRow 1) exConversation rfl rfl (by decide)).1,
    (h2.2.2.2 exConversation rfl (by decide)).1⟩

/-! ## Streaming coordinator (`streamBlockResponse` in `convex/ai.ts`)

The action consumes the provider stream part by part, mutating only
the placeholder block (`updateBlockAssistant`, `completeBlockAssistant`)
and, on error, the owning conversation (`conversations.setError`).  The
run state carries the accumulator, the placeholder block row, and the
conversation row.  `markdownToTiptapJson` (an external library call) is
a parameter of the run; `Date.now()` is modelled as a clock ticking per
processed part.  A Convex `patch` whose object literal carries an
explicitly `undefined` field *removes* that field, so passing no
`metadata` to `updateBlockAssistant` clears the stored metadata. -/

/-- The patch performed by `updateBlockAssistant`. -/
def updateBlockAssistantPatch (streamingContent : String) (streamId : String)
    (isStreaming : Bool) (metadata : Option Metadata) (now : Nat)
    (b : Block) : Block :=
  { b with streamingContent := some streamingContent,
           streamId := some streamId, isStreaming := isStreaming,
           updatedAt := now, metadata := metadata }

/-- The patch performed by `completeBlockAssistant` (its `streamId`
argument is accepted but the patch always clears the field, as in the
source). -/
def completeBlockAssistantPatch (content : JSONDoc) (streamId : String)
    (metadata : Option Metadata) (now : Nat) (b : Block) : Block :=
  { b with content := some content, isStreaming := false, streamId := none,
           streamingContent := none, updatedAt := now, metadata := metadata }

/-- The patch performed by `conversations.setError`. -/
def setErrorPatch (now : Nat) (c : Conversation) : Conversation :=
  { c with status := .error, updatedAt := now }

/-- The row inserted by `createAssistantBlock` (`metadata: { model }`). -/
def createAssistantBlockRow (conversationId : Nat) (model : String)
    (streamId : String) (order : ℚ) (now : Nat) : Block :=
  { conversationId := conversationId, author := .assistant, content := none,
    streamingContent := none, streamId := some streamId, isStreaming := false,
    order := order, isExcluded := false, createdAt := now, updatedAt := now,
    metadata := some ⟨none, some model, none⟩ }

/-- An element of the provider's `fullStream`. -/
inductive StreamPart where
  | textDelta (textDelta : String)
  | finish (finishReason : String) (totalTokens : Option Nat)
  | error (message : String)
  | other (partType : String)
deriving Repr

/-- The mutable state of one `streamBlockResponse` run. -/
structure GenState where
  accumulated : String
  block : Block
  conv : Conversation
deriving Repr

/-- One iteration of the `for await (const part of result.fullStream)`
switch: `text-delta` accumulates and fire-and-forget-writes the running
string (no metadata passed); `finish` converts the accumulated
Markdown and completes the block with metadata; `error` marks the
conversation failed; other part types are logged and ignored. -/
def processPart (md2doc : String → JSONDoc) (modelId streamId : String)
    (now : Nat) (s : GenState) (p : StreamPart) : GenState :=
  match p with
  | .textDelta d =>
    let accumulatedContent := s.accumulated ++ d
    { s with accumulated := accumulatedContent,
             block := updateBlockAssistantPatch accumulatedContent streamId
               true none now s.block }
  | .finish finishReason totalTokens =>
    { s with block := completeBlockAssistantPatch (md2doc s.accumulated)
               streamId (some ⟨totalTokens, some modelId, some finishReason⟩)
               now s.block }
  | .error _ => { s with conv := setErrorPatch now s.conv }
  | .other _ => s

/-- The consumption loop over the parts the provider emitted. -/
def runParts (md2doc : String → JSONDoc) (modelId streamId : String) :
    List StreamPart → Nat → GenState → GenState
  | [], _, s => s
  | p :: rest, t, s =>
    runParts md2doc modelId streamId rest (t + 1)
      (processPart md2doc modelId streamId t s p)

/-- `streamBlockResponse`'s `try`/`catch`: the parts consumed before
the stream iterator raised (if it did), then the catch handler calling
`conversations.setError`. -/
def streamBlockResponse (md2doc : String → JSONDoc) (modelId streamId : String)
    (consumed : List StreamPart) (thrown : Option String) (t0 : Nat)
    (s0 : GenState) : GenState :=
  let s := runParts md2doc modelId streamId consumed t0 s0
  match thrown with
  | none => s
  | some _ => { s with conv := setErrorPatch (t0 + consumed.length) s.conv }

lemma runParts_append (md2doc : String → JSONDoc) (modelId streamId : String) :
    ∀ (xs ys : List StreamPart) (t : Nat) (s : GenState),
      runParts md2doc modelId streamId (xs ++ ys) t s =
        runParts md2doc modelId streamId ys (t + xs.length)
          (runParts md2doc modelId streamId xs t s) := by
  intro xs
  induction xs with
  | nil =>
    intro ys t s
    simp [runParts]
  | cons p rest ih =>
    intro ys t s
    show runParts md2doc modelId streamId (rest ++ ys) (t + 1)
        (processPart md2doc modelId streamId t s p) = _
    rw [ih ys (t + 1) (processPart md2doc modelId streamId t s p)]
    have harith : t + 1 + rest.length = t + (p :: rest).length := by
      simp [List.length_cons]
      omega
    rw [harith]
    rfl

lemma foldl_append_init (l : List String) :
    ∀ a : String, l.foldl (fun r s => r ++ s) a =
      a ++ l.foldl (fun r s => r ++ s) "" := by
  induction l with
  | nil =>
    intro a
    exact (strAppend_empty a).symm
  | cons s rest ih =>
    intro a
    show rest.foldl (fun r s => r ++ s) (a ++ s) =
      a ++ rest.foldl (fun r s => r ++ s) ("" ++ s)
    rw [ih (a ++ s), ih ("" ++ s), String.append_assoc]
    rfl

lemma strJoin_cons (s : String) (rest : List String) :
    String.join (s :: rest) = s ++ String.join rest := by
  show rest.foldl (fun r s => r ++ s) ("" ++ s) = _
  rw [foldl_append_init rest ("" ++ s)]
  rfl

/-- Text deltas only touch the accumulator and the block; the
conversation is untouched and the accumulator collects the deltas in
order. -/
lemma runParts_deltas (md2doc : String → JSONDoc) (modelId streamId : String) :
    ∀ (ds : List String) (t : Nat) (acc : String) (b : Block)
      (c : Conversation),
      (runParts md2doc modelId streamId (ds.map StreamPart.textDelta) t
          ⟨acc, b, c⟩).accumulated = acc ++ String.join ds ∧
      (runParts md2doc modelId streamId (ds.map StreamPart.textDelta) t
          ⟨acc, b, c⟩).conv = c := by
  intro ds
  induction ds with
  | nil =>
    intro t acc b c
    exact ⟨(strAppend_empty acc).symm, rfl⟩
  | cons d rest ih =>
    intro t acc b c
    have := ih (t + 1) (acc ++ d)
      (updateBlockAssistantPatch (acc ++ d) streamId true none t b) c
    rw [strJoin_cons, ← String.append_assoc]
    exact this

/-- C3: a run whose stream emits a sequence of text deltas and then a
finish event leaves the placeholder block finalized: streaming flag
down, `streamingContent` and `streamId` cleared, `content` the
rich-document conversion of the full accumulated text, and metadata
carrying model id, finish reason, and token usage. -/
theorem streaming_finalization (md2doc : String → JSONDoc)
    (modelId streamId finishReason : String) (usage : Option Nat)
    (ds : List String) (t0 : Nat) (b0 : Block) (c0 : Conversation)
    (s : GenState)
    (hs : s = runParts md2doc modelId streamId
      (ds.map StreamPart.textDelta ++ [.finish finishReason usage]) t0
      ⟨"", b0, c0⟩) :
    s.block.isStreaming = false ∧
    s.block.streamingContent = none ∧
    s.block.streamId = none ∧
    s.block.content = some (md2doc (String.join ds)) ∧
    s.block.metadata = some ⟨usage, some modelId, some finishReason⟩ := by
  subst hs
  rw [runParts_append]
  refine ⟨rfl, rfl, rfl, ?_, rfl⟩
  have hacc := (runParts_deltas md2doc modelId streamId ds t0 "" b0 c0).1
  show some (md2doc (runParts md2doc modelId streamId
      (ds.map StreamPart.textDelta) t0 ⟨"", b0, c0⟩).accumulated) =
    some (md2doc (String.join ds))
  rw [hacc]
  rfl

/-- C3 witness: the spec's concrete run — deltas `["Hel", "lo"]`, then
finish — ends with `content` the rich-document form of `"Hello"`,
cleared streaming fields, and recorded metadata. -/
theorem streaming_finalization_witness :
    (runParts (fun md => ⟨some [.paragraph [.text md]]⟩) "gpt" "sid"
        (["Hel", "lo"].map StreamPart.textDelta ++ [.finish "stop" (some 42)])
        0 ⟨"", createAssistantBlockRow 1 "gpt" "sid" 1 0, exConversation⟩).block.content =
      some ⟨some [.paragraph [.text "Hello"]]⟩ := by
  have h := streaming_finalization (fun md => ⟨some [.paragraph [.text md]]⟩)
    "gpt" "sid" "stop" (some 42) ["Hel", "lo"] 0
    (createAssistantBlockRow 1 "gpt" "sid" 1 0) exConversation _ rfl
  exact h.2.2.2.1

/-- C5: the error paths set the conversation's status to error and
leave the placeholder block (and the accumulator) exactly as last
written — including a streaming flag stuck `true` when the last write
was a fragment. -/
theorem provider_error_preserves_block (md2doc : String → JSONDoc)
    (modelId streamId : String) (t0 : Nat) (s0 : GenState) :
    (∀ (parts : List StreamPart) (e : String),
      (runParts md2doc modelId streamId (parts ++ [.error e]) t0 s0).block =
        (runParts md2doc modelId streamId parts t0 s0).block ∧
      (runParts md2doc modelId streamId (parts ++ [.error e]) t0 s0).accumulated =
        (runParts md2doc modelId streamId parts t0 s0).accumulated ∧
      (runParts md2doc modelId streamId (parts ++ [.error e]) t0 s0).conv.status =
        .error) ∧
    (∀ (consumed : List StreamPart) (exn : String),
      (streamBlockResponse md2doc modelId streamId consumed (some exn) t0
          s0).block =
        (runParts md2doc modelId streamId consumed t0 s0).block ∧
      (streamBlockResponse md2doc modelId streamId consumed (some exn) t0
          s0).conv.status = .error) ∧
    (∀ (parts : List StreamPart) (d e : String),
      (runParts md2doc modelId streamId (parts ++ [.textDelta d, .error e]) t0
          s0).block.isStreaming = true) := by
  refine ⟨?_, ?_, ?_⟩
  · intro parts e
    rw [runParts_append]
    exact ⟨rfl, rfl, rfl⟩
  · intro consumed exn
    exact ⟨rfl, rfl⟩
  · intro parts d e
    rw [runParts_append]
    rfl

/-- C10: `createAssistantBlock` records `{model}` metadata; the very
next fragment write (`updateBlockAssistant` called with no metadata
argument, which Convex's patch semantics turns into a field removal)
erases it; only the finish-event completion write repopulates it. -/
theorem fragment_write_erases_metadata (md2doc : String → JSONDoc)
    (modelId streamId model : String) (conversationId : Nat) (ord : ℚ)
    (t t' : Nat) (d finishReason : String) (usage : Option Nat)
    (s : GenState) :
    (createAssistantBlockRow conversationId model streamId ord t).metadata =
      some ⟨none, some model, none⟩ ∧
    (processPart md2doc modelId streamId t' s (.textDelta d)).block.metadata =
      none ∧
    (processPart md2doc modelId streamId t' s
        (.finish finishReason usage)).block.metadata =
      some ⟨usage, some modelId, some finishReason⟩ :=
  ⟨rfl, rfl, rfl⟩

end T3Clone
